import Mathlib

/-!
Verification of the task-reconciliation service (`main.py`) against its
specification.  The Python source is shallowly embedded: strings are handled
as `String`/`List Char`, dictionaries with possibly-missing keys as
`Option`-valued fields, Python truthiness of optional strings as `truthyStr`,
exceptions as explicit `raised` flags / `Option` results, and the two remote
stores (Google Tasks, Notion) as in-memory lists threaded through the
reconciliation fold.  Timestamp handling models `datetime.fromisoformat`
(after the `Z -> +00:00` replacement of `parse_rfc3339`) on the RFC-3339
shapes this service exchanges: `YYYY-MM-DD[<sep>HH[:MM[:SS[.f{1..6}]]][+HH:MM]]`,
with aware/naive comparison mismatches raising as in Python.
-/

/-- Python truthiness of an optional string (`None` and `""` are falsy),
as used by `task.get(...)` guards throughout `main.py`. -/
def truthyStr : Option String → Bool
  | none => false
  | some s => !(s = "")

/-- ASCII whitespace stripped by Python `str.strip()` and matched by the
regex class `\s` (the service only exchanges ASCII whitespace). -/
def isPySpaceChar (c : Char) : Bool :=
  c = ' ' || c = '\t' || c = '\n' || c = '\r' || c = '\x0b' || c = '\x0c'

/-- Python `str.strip()` on a character list: drop whitespace from both ends. -/
def pyStrip (l : List Char) : List Char :=
  ((l.dropWhile isPySpaceChar).reverse.dropWhile isPySpaceChar).reverse

/-- ASCII letter, the character class `[A-Za-z]` of `TASK_TYPE_REGEX`. -/
def isAsciiLetter (c : Char) : Bool :=
  ('A' ≤ c && c ≤ 'Z') || ('a' ≤ c && c ≤ 'z')

/-- Suffix of the list strictly after the first `'>'`, if any; the scanning
core of `re.sub(r'<[^>]*>', '', s)` (a match runs from a `'<'` to the first
following `'>'`). -/
def findGt : List Char → Option (List Char)
  | [] => none
  | c :: cs => if c = '>' then some cs else findGt cs

/-- Fuel-indexed worker for the tag-removal scan; the fuel (any bound on the
list length) only serves structural termination, see `removeTagsF_congr`. -/
def removeTagsF : Nat → List Char → List Char
  | _, [] => []
  | 0, l => l
  | fuel + 1, c :: cs =>
    if c = '<' then
      match findGt cs with
      | some rest => removeTagsF fuel rest
      | none => c :: cs
    else c :: removeTagsF fuel cs

/-- Model of `re.sub(r'<[^>]*>', '', s)`: each `'<'` that is followed by some
`'>'` is removed together with everything up to and including that first
`'>'`; a `'<'` with no later `'>'` starts no match, and since no `'>'`
remains at all, the rest of the string is left untouched. -/
def removeTags (l : List Char) : List Char := removeTagsF l.length l

/-- Whether the list contains a complete angle-bracket span, i.e. a `'<'`
with some `'>'` occurring after it (the shape `re.sub(r'<[^>]*>', '', _)`
removes). -/
def hasSpan : List Char → Bool
  | [] => false
  | c :: cs => if c = '<' then cs.contains '>' || hasSpan cs else hasSpan cs

/-- Model of `sanitize_string` from `main.py` (the `input_str` arguments in
the sync flow are always strings, so the `None` case of the Python
`Optional[str]` parameter collapses into the empty-string check): drop
control characters below 32 other than tab/newline/carriage-return,
truncate to `maxLength` code points, strip angle-bracket spans, strip
surrounding whitespace. -/
def sanitize_string (s : String) (maxLength : Nat := 2000) : String :=
  if s = "" then ""
  else
    let cs := s.data.filter (fun c => 32 ≤ c.toNat || c = '\n' || c = '\r' || c = '\t')
    let cs := cs.take maxLength
    let cs := removeTags cs
    String.mk (pyStrip cs)

/-- Result of matching `TASK_TYPE_REGEX = ^([A-Za-z]{3,5})-\s?` against a
string: the captured letter group and the total length of the match.  The
greedy `{3,5}` followed by the non-letter `'-'` matches exactly when the
maximal leading letter run has length 3..5 and is followed by `'-'`;
`\s?` then consumes one following whitespace character if present. -/
def task_type_match (s : String) : Option (List Char × Nat) :=
  let cs := s.data
  let run := cs.takeWhile isAsciiLetter
  let k := run.length
  if 3 ≤ k ∧ k ≤ 5 then
    match cs.drop k with
    | '-' :: rest =>
      let extra := match rest with
        | c :: _ => if isPySpaceChar c then 1 else 0
        | [] => 0
      some (run, k + 1 + extra)
    | _ => none
  else none

/-- Model of `extract_task_type`: the uppercased capture group of
`TASK_TYPE_REGEX`, if the title matches. -/
def extract_task_type (title : String) : Option String :=
  match task_type_match title with
  | some (run, _) => some (String.mk (run.map Char.toUpper))
  | none => none

/-- Model of `TASK_TYPE_REGEX.sub("", title)`: the pattern is anchored at the
string start, so at most the leading match is removed. -/
def task_type_sub (title : String) : String :=
  match task_type_match title with
  | some (_, len) => String.mk (title.data.drop len)
  | none => title

/-- Model of `normalize_title`:
`sanitize_string(TASK_TYPE_REGEX.sub("", title).strip())`. -/
def normalize_title (title : String) : String :=
  sanitize_string (String.mk (pyStrip (task_type_sub title).data))

/-- An aware or naive Python `datetime`, reduced to what comparison and
subtraction observe: microseconds since 1970-01-01 (wall-clock microseconds
for naive values, UTC-normalized microseconds for aware values) and the
awareness flag.  Comparing or subtracting a naive and an aware value raises
`TypeError` in Python, which callers model explicitly. -/
structure PyDateTime where
  usec : Int
  aware : Bool
deriving Repr, DecidableEq

/-- Comparison `a > b` of two datetimes: defined only when both are naive or
both aware (UTC normalization is already folded into `usec`). -/
def pyGtDT (a b : PyDateTime) : Except Unit Bool :=
  if a.aware = b.aware then .ok (b.usec < a.usec) else .error ()

/-- Value of a decimal digit character. -/
def digitVal (c : Char) : Option Nat :=
  if '0' ≤ c && c ≤ '9' then some (c.toNat - 48) else none

/-- Read exactly `n` decimal digits, returning their value and the rest. -/
def readDigitsAux : Nat → Nat → List Char → Option (Nat × List Char)
  | 0, acc, cs => some (acc, cs)
  | _ + 1, _, [] => none
  | n + 1, acc, c :: cs =>
    match digitVal c with
    | some d => readDigitsAux n (acc * 10 + d) cs
    | none => none

def readDigits (n : Nat) (cs : List Char) : Option (Nat × List Char) :=
  readDigitsAux n 0 cs

def natOfDigits (ds : List Char) : Nat :=
  ds.foldl (fun a c => a * 10 + (c.toNat - 48)) 0

/-- Read a fractional-seconds field of 1 to 6 digits, scaled to microseconds. -/
def readFrac (cs : List Char) : Option (Nat × List Char) :=
  let ds := cs.takeWhile (fun c => '0' ≤ c && c ≤ '9')
  if ds.length = 0 || 6 < ds.length then none
  else some (natOfDigits ds * 10 ^ (6 - ds.length), cs.drop ds.length)

/-- Proleptic-Gregorian leap year, as in Python's `datetime`. -/
def isLeap (y : Nat) : Bool :=
  y % 4 = 0 && (!(y % 100 = 0) || y % 400 = 0)

def daysBeforeMonth (y m : Nat) : Nat :=
  if m = 2 then (if isLeap y then 29 else 28)
  else if m = 4 || m = 6 || m = 9 || m = 11 then 30
  else 31

/-- Days from 1970-01-01 to the civil date `y-m-d` (valid for years ≥ 1);
the standard days-from-civil computation. -/
def daysFromCivil (y m d : Int) : Int :=
  let y2 := y - (if m ≤ 2 then 1 else 0)
  let era := y2 / 400
  let yoe := y2 - era * 400
  let doy := (153 * (m + (if 2 < m then (-3) else 9)) + 2) / 5 + d - 1
  let doe := yoe * 365 + yoe / 4 - yoe / 100 + doy
  era * 146097 + doe - 719468

/-- Wall-clock microseconds since the epoch of a civil date and time. -/
def wallUsec (y m d h mi s us : Nat) : Int :=
  (daysFromCivil y m d * 86400 + ((h * 3600 + mi * 60 + s : Nat) : Int)) * 1000000 + (us : Int)

/-- Read the `HH[:MM[:SS[.f]]]` time part; `.` or `,` introduces the
fraction, as accepted by `datetime.fromisoformat`. -/
def readTime (cs : List Char) : Option (Nat × Nat × Nat × Nat × List Char) := do
  let (h, cs) ← readDigits 2 cs
  if h ≤ 23 then pure () else none
  match cs with
  | ':' :: cs => do
    let (mi, cs) ← readDigits 2 cs
    if mi ≤ 59 then pure () else none
    match cs with
    | ':' :: cs => do
      let (s, cs) ← readDigits 2 cs
      if s ≤ 59 then pure () else none
      match cs with
      | '.' :: cs2 => do
        let (us, cs3) ← readFrac cs2
        pure (h, mi, s, us, cs3)
      | ',' :: cs2 => do
        let (us, cs3) ← readFrac cs2
        pure (h, mi, s, us, cs3)
      | _ => pure (h, mi, s, 0, cs)
    | _ => pure (h, mi, 0, 0, cs)
  | _ => pure (h, 0, 0, 0, cs)

/-- Read a trailing UTC offset `±HH:MM`, returning its signed value in
seconds; `none` input offset means a naive result. -/
def readOffset (cs : List Char) : Option (Option Int) :=
  match cs with
  | [] => some none
  | sign :: cs =>
    if sign = '+' || sign = '-' then do
      let (oh, cs) ← readDigits 2 cs
      match cs with
      | ':' :: cs => do
        let (om, cs) ← readDigits 2 cs
        if oh ≤ 23 && om ≤ 59 && cs = [] then
          let secs : Int := (oh * 3600 + om * 60 : Nat)
          pure (some (if sign = '-' then -secs else secs))
        else none
      | _ => none
    else none

/-- Model of `datetime.fromisoformat` on the shapes this service exchanges:
`YYYY-MM-DD`, optionally followed by a single separator character and
`HH[:MM[:SS[.f{1..6}]]]`, optionally followed by an offset `±HH:MM`
(a leading `Z` has already been rewritten to `+00:00` by `parse_rfc3339`).
Anything else is a `ValueError`, modeled as `none`. -/
def fromisoformatSub (cs : List Char) : Option PyDateTime := do
  let (y, cs) ← readDigits 4 cs
  if 1 ≤ y then pure () else none
  match cs with
  | '-' :: cs => do
    let (m, cs) ← readDigits 2 cs
    if 1 ≤ m && m ≤ 12 then pure () else none
    match cs with
    | '-' :: cs => do
      let (d, cs) ← readDigits 2 cs
      if 1 ≤ d && d ≤ daysBeforeMonth y m then pure () else none
      match cs with
      | [] => pure ⟨wallUsec y m d 0 0 0 0, false⟩
      | _sep :: cs => do
        let (h, mi, s, us, cs) ← readTime cs
        let off ← readOffset cs
        match off with
        | none => pure ⟨wallUsec y m d h mi s us, false⟩
        | some o => pure ⟨wallUsec y m d h mi s us - o * 1000000, true⟩
    | _ => none
  | _ => none

/-- Python `ts.replace("Z", "+00:00")`: every `'Z'` is replaced. -/
def replaceZ : List Char → List Char
  | [] => []
  | c :: cs =>
    if c = 'Z' then '+' :: '0' :: '0' :: ':' :: '0' :: '0' :: replaceZ cs
    else c :: replaceZ cs

/-- Model of `parse_rfc3339` from `main.py`:
`datetime.fromisoformat(ts.replace("Z", "+00:00"))`, with the Python
`ValueError` on malformed input modeled as `none`. -/
def parse_rfc3339 (ts : String) : Option PyDateTime :=
  fromisoformatSub (replaceZ ts.data)

/-- A Google Tasks task as consumed by `sync_tasks`: the dict fields that the
sync flow reads. `id` is always present in API results; the other fields are
optional dict keys (`none` = key absent). `deleted` models the truthiness of
`task.get("deleted")`. -/
structure GTask where
  id : String
  title : Option String
  notes : Option String
  status : Option String
  updated : Option String
  due : Option String
  deleted : Bool
  selfLink : Option String
deriving Repr, DecidableEq

/-- A Notion page of the sync database, reduced to the properties the service
reads and writes.  `updatedAt` models
`properties.get("Updated at", {}).get("date", {}).get("start")` (`none` when
any level is missing), `importedAt` the `"Imported at"` date-start chain
(whose absence raises a per-task `KeyError`), and `externalId` the
`"Google Task ID"` rich text (`""` modeling an empty rich-text array). -/
structure NotionRecord where
  externalId : String
  name : String
  status : String
  importedAt : Option String
  updatedAt : Option String
  dueDate : Option String
  description : Option String
  link : Option (Option String)
  effort : Option String
  typeTags : List String
deriving Repr, DecidableEq

/-- Model of `find_notion_task`: the Notion query filters on
`Google Task ID == google_task_id` and the caller takes `results[0]`;
on the list model this is the first record with the matching external id. -/
def find_notion_task : List NotionRecord → String → Option NotionRecord
  | [], _ => none
  | r :: rs, gid => if r.externalId = gid then some r else find_notion_task rs gid

/-- The record built by `create_notion_task` for a task (the page Notion
would create from the transmitted properties): sanitized normalized title,
status derived from the task status, external id, `Imported at` set to the
current time, and the optional fields only when truthy on the task. -/
def createRecord (t : GTask) (nowIso : String) : NotionRecord :=
  let rawTitle := sanitize_string (t.title.getD "Untitled")
  { externalId := t.id
    name := normalize_title rawTitle
    status := if t.status = some "completed" then "Completed" else "To do"
    importedAt := some nowIso
    updatedAt := if truthyStr t.updated then t.updated else none
    dueDate := if truthyStr t.due then t.due else none
    description := if truthyStr t.notes then some (sanitize_string (t.notes.getD "")) else none
    link := some t.selfLink
    effort := some "Medium"
    typeTags := match extract_task_type rawTitle with
      | some tag => [tag]
      | none => [] }

/-- The record after `update_notion_task` patches the page: `Task name` is
always rewritten from `task["title"]` (the caller guarantees the key is
present, else the `KeyError` is modeled upstream), the optional fields only
when truthy; Notion PATCH leaves unmentioned properties unchanged. -/
def applyUpdate (r : NotionRecord) (t : GTask) (title : String) : NotionRecord :=
  { r with
    name := normalize_title (sanitize_string title)
    updatedAt := if truthyStr t.updated then t.updated else r.updatedAt
    dueDate := if truthyStr t.due then t.due else r.dueDate
    description := if truthyStr t.notes then some (sanitize_string (t.notes.getD "")) else r.description }

/-- Store effect of `update_notion_task`: the PATCH addresses the page id of
the record `find_notion_task` returned, i.e. the first record with the given
external id. -/
def update_notion_store : List NotionRecord → String → GTask → String → List NotionRecord
  | [], _, _, _ => []
  | r :: rs, gid, t, title =>
    if r.externalId = gid then applyUpdate r t title :: rs
    else r :: update_notion_store rs gid t title

/-- Outcome of the incremental-update step (lines 761-769 of `main.py`) for a
found record: no update, an update (carrying the title string read from
`task["title"]`), or a raised per-task exception (unparseable timestamp,
naive/aware comparison, or missing `"title"` key when building the update). -/
inductive Step3Out where
  | noUpdate
  | doUpdate (title : String)
  | raise
deriving Repr, DecidableEq

/-- The incremental-update decision: gate on truthiness of the stored
`Updated at` and the task's `updated`, parse both (the task side first, as
in the source), compare, and on a strictly newer task timestamp build and
send the update. -/
def step3 (r : NotionRecord) (t : GTask) : Step3Out :=
  if truthyStr r.updatedAt && truthyStr t.updated then
    match parse_rfc3339 (t.updated.getD "") with
    | none => .raise
    | some a =>
      match parse_rfc3339 (r.updatedAt.getD "") with
      | none => .raise
      | some b =>
        match pyGtDT a b with
        | .error _ => .raise
        | .ok true =>
          match t.title with
          | none => .raise
          | some title => .doUpdate title
        | .ok false => .noUpdate
  else .noUpdate

/-- Result of processing one task of the forward loop: the store after the
step, the per-task deltas of the `created`/`updated`/`completed` counters,
the ids passed to `complete_google_task`, and whether the step ended in a
caught per-task exception. -/
structure StepRes where
  store : List NotionRecord
  created : Nat
  updated : Nat
  completed : Nat
  completions : List String
  raised : Bool
deriving Repr, DecidableEq

/-- The weekly-cleanup step (lines 771-776 of `main.py`), run for a found
record after the incremental-update step, over the store `S2` and `updated`
delta `upd` that step left behind: read the record's `Imported at`
(raising the modeled `KeyError` when absent), parse it (raising on
`ValueError` or on a naive/aware subtraction `TypeError`), and when the
record is more than `CLEANUP_DAYS = 7` days old and the task is not
completed, complete the task in Google. -/
def staleness_step (nowUsec : Int) (t : GTask) (r : NotionRecord)
    (S2 : List NotionRecord) (upd : Nat) : StepRes :=
  match r.importedAt with
  | none => ⟨S2, 0, upd, 0, [], true⟩
  | some ia =>
    match parse_rfc3339 ia with
    | none => ⟨S2, 0, upd, 0, [], true⟩
    | some d =>
      if d.aware = false then ⟨S2, 0, upd, 0, [], true⟩
      else if (604800000000 : Int) < nowUsec - d.usec then
        if t.status = some "completed" then ⟨S2, 0, upd, 0, [], false⟩
        else ⟨S2, 0, upd, 1, [t.id], false⟩
      else ⟨S2, 0, upd, 0, [], false⟩

/-- One iteration of the forward per-task loop of `sync_tasks` (lines
749-781): skip deleted tasks; create when the lookup finds nothing;
otherwise run the incremental-update step and then, independently, the
staleness closeout (`now - Imported at > 7 days` and task not completed).
A raise at any point keeps the effects already performed and aborts the
rest of the iteration, as the `except/continue` in the source does. -/
def processTask (nowUsec : Int) (nowIso : String) (S : List NotionRecord) (t : GTask) : StepRes :=
  if t.deleted then ⟨S, 0, 0, 0, [], false⟩
  else
    match find_notion_task S t.id with
    | none => ⟨S ++ [createRecord t nowIso], 1, 0, 0, [], false⟩
    | some r =>
      match step3 r t with
      | .raise => ⟨S, 0, 0, 0, [], true⟩
      | .noUpdate => staleness_step nowUsec t r S 0
      | .doUpdate title => staleness_step nowUsec t r (update_notion_store S t.id t title) 1

/-- Accumulated state of the forward pass: the store plus the
`created`/`updated`/`completed_in_google` counters and the completions
issued so far. -/
structure SyncState where
  store : List NotionRecord
  created : Nat
  updated : Nat
  completed : Nat
  completions : List String
deriving Repr, DecidableEq

def initState (S : List NotionRecord) : SyncState := ⟨S, 0, 0, 0, []⟩

/-- One forward-loop iteration at the accumulator level: the per-task
`try/except` of the source catches any per-task failure and keeps the
effects performed before the raise. -/
def forward_step (nowUsec : Int) (nowIso : String) (st : SyncState) (t : GTask) : SyncState :=
  let res := processTask nowUsec nowIso st.store t
  ⟨res.store, st.created + res.created, st.updated + res.updated,
    st.completed + res.completed, st.completions ++ res.completions⟩

/-- The forward pass of `sync_tasks`: fold the per-task step over the fetched
task list. -/
def sync_forward (nowUsec : Int) (nowIso : String) (tasks : List GTask) (st : SyncState) : SyncState :=
  tasks.foldl (forward_step nowUsec nowIso) st

/-- Model of `google_tasks_map = {task["id"]: task for task in tasks}`:
a later task with the same id overwrites an earlier one. -/
def google_tasks_map (tasks : List GTask) (gid : String) : Option GTask :=
  tasks.reverse.find? (fun t => t.id = gid)

/-- Model of `sync_notion_to_google`: for each completed Notion page, read
its external id (skip when the rich text is empty), look the task up in the
map (skip when absent), skip tasks already completed, otherwise complete the
task and count it.  Returns the `synced` counter and the completed ids. -/
def sync_notion_to_google (pages : List NotionRecord) (gmap : String → Option GTask) :
    Nat × List String :=
  pages.foldl
    (fun acc page =>
      if page.externalId = "" then acc
      else
        match gmap page.externalId with
        | none => acc
        | some g =>
          if g.status = some "completed" then acc
          else (acc.1 + 1, acc.2 ++ [g.id]))
    (0, [])

/-- The property keys transmitted by `create_notion_task`, in dict insertion
order after the `None`-valued entries are filtered out.  The conditional
entries mirror the `... if task.get(k) else None` expressions of the source;
the `"Link"` entry is unconditional there (its value is the dict
`{"url": task.get("selfLink")}`, which is never `None` even when the task
has no `selfLink`). -/
def create_notion_properties (t : GTask) : List String :=
  let rawTitle := sanitize_string (t.title.getD "Untitled")
  ["Task name", "Status", "Google Task ID", "Imported at"]
    ++ (if truthyStr t.updated then ["Updated at"] else [])
    ++ (if truthyStr t.due then ["Due date"] else [])
    ++ (if truthyStr t.notes then ["Description"] else [])
    ++ ["Link", "Effort level"]
    ++ (if (extract_task_type rawTitle).isSome then ["Task type"] else [])

/-- The property keys transmitted by `update_notion_task`, `none` when the
`task["title"]` access raises `KeyError` before anything is sent. -/
def update_notion_properties (t : GTask) : Option (List String) :=
  match t.title with
  | none => none
  | some _ =>
    some (["Task name"]
      ++ (if truthyStr t.updated then ["Updated at"] else [])
      ++ (if truthyStr t.due then ["Due date"] else [])
      ++ (if truthyStr t.notes then ["Description"] else []))

/-- An entry of `PROCESSED_TRANSACTIONS`: token, store time (seconds), and
the cached result payload (the response dict, modeled as its counter list). -/
abbrev TxEntry := String × Nat × List (String × Nat)

/-- The sweep of expired transactions at the top of `is_idempotent_request`:
entries strictly older than `TRANSACTION_TTL = 3600` seconds are dropped. -/
def tx_sweep (now : Nat) (m : List TxEntry) : List TxEntry :=
  m.filter (fun e => !(3600 < now - e.2.1))

/-- Model of `is_idempotent_request`: sweep expired entries (mutating the
global map), then report whether the token is still present. -/
def is_idempotent_request (now : Nat) (m : List TxEntry) (tid : String) :
    Bool × List TxEntry :=
  let m2 := tx_sweep now m
  (m2.any (fun e => e.1 = tid), m2)

/-- Model of `get_transaction_result`: the cached payload of the token. -/
def get_transaction_result (m : List TxEntry) (tid : String) : Option (List (String × Nat)) :=
  (m.find? (fun e => e.1 = tid)).map (fun e => e.2.2)

/-- Model of `mark_transaction_processed`: store the result under the token
(the caller only marks tokens that are not in the swept map, so the dict
assignment is an insertion). -/
def mark_transaction_processed (m : List TxEntry) (tid : String) (now : Nat)
    (res : List (String × Nat)) : List TxEntry :=
  m ++ [(tid, now, res)]

/-- The idempotency skeleton of `sync_tasks` (lines 732-738 and 800-802):
given the result `fresh` that a full reconciliation run would produce,
return the response payload, the new transaction map, and whether the
reconciliation logic actually executed. -/
def sync_with_tx (now : Nat) (m : List TxEntry) (tid : Option String)
    (fresh : List (String × Nat)) :
    Option (List (String × Nat)) × List TxEntry × Bool :=
  match tid with
  | none => (some fresh, m, true)
  | some t =>
    let p := is_idempotent_request now m t
    if p.1 then (get_transaction_result p.2 t, p.2, false)
    else (some fresh, mark_transaction_processed p.2 t now fresh, true)

/-- Model of `verify_cloud_function_auth`: authenticated when the IAP JWT
header is truthy or the `Authorization` header (defaulted to `""`) starts
with `"Bearer "`; otherwise authenticated anyway when the `ENVIRONMENT`
variable equals `"local"`; otherwise rejected. -/
def verify_cloud_function_auth (iapJwt : Option String) (authHeader : Option String)
    (environment : Option String) : Bool :=
  if truthyStr iapJwt || (authHeader.getD "").startsWith "Bearer " then true
  else if environment = some "local" then true
  else false

/-- The optional single whitespace character consumed by the `\s?` at the end
of `TASK_TYPE_REGEX`, on the remainder after the `letters ++ "-"` prefix. -/
def dropOneSpace : List Char → List Char
  | [] => []
  | c :: r => if isPySpaceChar c then r else c :: r

/-- Number of characters the `\s?` consumes: 1 when the remainder starts
with whitespace, else 0. -/
def extraOf : List Char → Nat
  | [] => 0
  | c :: _ => if isPySpaceChar c then 1 else 0

/-- Whether the incremental-update step would transmit an update for task
`t` against record `r` (used to state the second-run stability invariant). -/
def step3IsUpdate (r : NotionRecord) (t : GTask) : Bool :=
  match step3 r t with
  | .doUpdate _ => true
  | _ => false

/-- Second-run stability of a store for a task: the lookup finds a record
and the incremental-update step would not fire against it. -/
def stableFor (S : List NotionRecord) (t : GTask) : Prop :=
  ∃ r, find_notion_task S t.id = some r ∧ step3IsUpdate r t = false

/-! ## Supporting lemmas -/

theorem findGt_none : ∀ (cs : List Char), findGt cs = none → '>' ∉ cs := by
  intro cs
  induction cs with
  | nil => intro _ h; simp at h
  | cons c cs ih =>
    intro h
    simp only [findGt] at h
    split at h
    · cases h
    · next hc =>
      simp only [List.mem_cons, not_or]
      exact ⟨fun hh => hc hh.symm, ih h⟩

theorem findGt_sublist : ∀ (cs rest : List Char), findGt cs = some rest →
    rest.Sublist cs := by
  intro cs
  induction cs with
  | nil => intro rest h; simp [findGt] at h
  | cons c cs ih =>
    intro rest h
    simp only [findGt] at h
    split at h
    · cases h; exact List.sublist_cons_self c cs
    · exact (ih rest h).trans (List.sublist_cons_self c cs)

theorem findGt_length : ∀ (cs rest : List Char), findGt cs = some rest →
    rest.length < cs.length := by
  intro cs
  induction cs with
  | nil => intro rest h; simp [findGt] at h
  | cons c cs ih =>
    intro rest h
    simp only [findGt] at h
    split at h
    · cases h; simp
    · exact Nat.lt_trans (ih rest h) (by simp)

theorem removeTagsF_congr : ∀ (f1 f2 : Nat) (l : List Char), l.length ≤ f1 →
    l.length ≤ f2 → removeTagsF f1 l = removeTagsF f2 l := by
  intro f1
  induction f1 with
  | zero =>
    intro f2 l h1 _
    rw [List.length_eq_zero.1 (Nat.le_zero.1 h1)]
    cases f2 <;> rfl
  | succ f ih =>
    intro f2 l h1 h2
    match l with
    | [] => cases f2 <;> rfl
    | c :: cs =>
      match f2 with
      | 0 => exact absurd h2 (by simp)
      | g + 1 =>
        have hcs1 : cs.length ≤ f := by simpa using h1
        have hcs2 : cs.length ≤ g := by simpa using h2
        simp only [removeTagsF]
        split
        · cases hf : findGt cs with
          | some rest =>
            have hr := findGt_length cs rest hf
            exact ih g rest (le_of_lt (lt_of_lt_of_le hr hcs1))
              (le_of_lt (lt_of_lt_of_le hr hcs2))
          | none => rfl
        · rw [ih g cs hcs1 hcs2]

theorem removeTags_lt_some (cs rest : List Char) (h : findGt cs = some rest) :
    removeTags ('<' :: cs) = removeTags rest := by
  show removeTagsF (cs.length + 1) ('<' :: cs) = _
  simp only [removeTagsF, if_pos rfl, h]
  exact removeTagsF_congr cs.length rest.length rest
    (le_of_lt (findGt_length cs rest h)) le_rfl

theorem removeTags_lt_none (cs : List Char) (h : findGt cs = none) :
    removeTags ('<' :: cs) = '<' :: cs := by
  show removeTagsF (cs.length + 1) ('<' :: cs) = _
  simp [removeTagsF, h]

theorem removeTags_cons (c : Char) (cs : List Char) (hc : ¬c = '<') :
    removeTags (c :: cs) = c :: removeTags cs := by
  show removeTagsF (cs.length + 1) (c :: cs) = _
  simp only [removeTagsF, if_neg hc]
  rfl

theorem removeTags_induct (motive : List Char → Prop) (h1 : motive [])
    (h2 : ∀ cs rest, findGt cs = some rest → motive rest → motive ('<' :: cs))
    (h3 : ∀ cs, findGt cs = none → motive ('<' :: cs))
    (h4 : ∀ c cs, ¬c = '<' → motive cs → motive (c :: cs)) : ∀ l, motive l := by
  have key : ∀ (n : Nat) (l : List Char), l.length ≤ n → motive l := by
    intro n
    induction n with
    | zero =>
      intro l h
      rw [List.length_eq_zero.1 (Nat.le_zero.1 h)]
      exact h1
    | succ n ih =>
      intro l hl
      match l with
      | [] => exact h1
      | c :: cs =>
        have hcs : cs.length ≤ n := by simpa using hl
        by_cases hc : c = '<'
        · subst hc
          cases hf : findGt cs with
          | some rest =>
            exact h2 cs rest hf
              (ih rest (le_of_lt (lt_of_lt_of_le (findGt_length cs rest hf) hcs)))
          | none => exact h3 cs hf
        · exact h4 c cs hc (ih cs hcs)
  intro l
  exact key l.length l le_rfl

theorem removeTags_subset : ∀ (l : List Char), ∀ x ∈ removeTags l, x ∈ l := by
  intro l
  induction l using removeTags_induct with
  | h1 => simp [removeTags, removeTagsF]
  | h2 cs rest h ih =>
    intro x hx
    rw [removeTags_lt_some cs rest h] at hx
    exact List.mem_cons_of_mem _ ((findGt_sublist cs rest h).subset (ih x hx))
  | h3 cs h =>
    intro x hx
    rwa [removeTags_lt_none cs h] at hx
  | h4 c cs hc ih =>
    intro x hx
    rw [removeTags_cons c cs hc] at hx
    rcases List.mem_cons.1 hx with hh | hh
    · exact hh ▸ List.mem_cons_self _ _
    · exact List.mem_cons_of_mem _ (ih x hh)

theorem removeTags_length : ∀ (l : List Char), (removeTags l).length ≤ l.length := by
  intro l
  induction l using removeTags_induct with
  | h1 => simp [removeTags, removeTagsF]
  | h2 cs rest h ih =>
    rw [removeTags_lt_some cs rest h]
    calc (removeTags rest).length ≤ rest.length := ih
      _ ≤ cs.length := (findGt_sublist cs rest h).length_le
      _ ≤ ('<' :: cs).length := by simp
  | h3 cs h => rw [removeTags_lt_none cs h]
  | h4 c cs hc ih =>
    rw [removeTags_cons c cs hc]
    simpa using ih

theorem hasSpan_of_not_mem : ∀ (l : List Char), '>' ∉ l → hasSpan l = false := by
  intro l
  induction l with
  | nil => intro _; rfl
  | cons c cs ih =>
    intro h
    have hcs : '>' ∉ cs := fun hm => h (List.mem_cons_of_mem _ hm)
    rw [hasSpan]
    split
    · rw [ih hcs]
      simpa using hcs
    · exact ih hcs

theorem hasSpan_removeTags : ∀ (l : List Char), hasSpan (removeTags l) = false := by
  intro l
  induction l using removeTags_induct with
  | h1 => rfl
  | h2 cs rest h ih => rw [removeTags_lt_some cs rest h]; exact ih
  | h3 cs h =>
    rw [removeTags_lt_none cs h]
    have hcs := findGt_none cs h
    rw [hasSpan, if_pos rfl, hasSpan_of_not_mem cs hcs]
    simpa using hcs
  | h4 c cs hc ih =>
    rw [removeTags_cons c cs hc, hasSpan, if_neg hc]
    exact ih

theorem hasSpan_sublist : ∀ {l1 l2 : List Char}, l1.Sublist l2 → hasSpan l1 = true →
    hasSpan l2 = true := by
  intro l1 l2 h
  induction h with
  | slnil => intro h; cases h
  | cons a hsub ih =>
    intro h
    rw [hasSpan]
    split
    · rw [ih h]; simp
    · exact ih h
  | @cons₂ l3 l4 a hsub ih =>
    intro h
    rw [hasSpan] at h ⊢
    split at h
    · next ha =>
      rw [if_pos ha]
      rcases Bool.or_eq_true_iff.1 h with hh | hh
      · have hmem : '>' ∈ l3 := by simpa using hh
        have hmem2 : '>' ∈ l4 := hsub.subset hmem
        simp [hmem2]
      · rw [ih hh]; simp
    · next ha =>
      rw [if_neg ha]
      exact ih h

theorem pyStrip_sublist : ∀ (l : List Char), (pyStrip l).Sublist l := by
  intro l
  unfold pyStrip
  have h1 : (l.dropWhile isPySpaceChar).Sublist l := List.dropWhile_sublist _
  have h2 : (((l.dropWhile isPySpaceChar).reverse.dropWhile isPySpaceChar).reverse).Sublist
      (l.dropWhile isPySpaceChar) := by
    have h3 := List.dropWhile_sublist (p := isPySpaceChar)
      (l := (l.dropWhile isPySpaceChar).reverse)
    have hr := h3.reverse
    rwa [List.reverse_reverse] at hr
  exact h2.trans h1

/-! ## Claim theorems -/

/-- C7: `sanitize_string` strips every control character with ordinal below
32 except tab, newline and carriage return, strips every complete
angle-bracket span, and truncates to the configured maximum length: its
result never exceeds `maxLength` code points, never contains a stripped
character, and never contains a complete angle-bracket span. -/
theorem c7_sanitize_string (s : String) (maxLength : Nat) :
    (∀ c ∈ (sanitize_string s maxLength).data,
        32 ≤ c.toNat ∨ c = '\n' ∨ c = '\r' ∨ c = '\t') ∧
    (sanitize_string s maxLength).length ≤ maxLength ∧
    hasSpan (sanitize_string s maxLength).data = false := by
  unfold sanitize_string
  split
  · exact ⟨by simp, by simp [String.length], rfl⟩
  · refine ⟨?_, ?_, ?_⟩
    · intro c hc
      have h1 := (pyStrip_sublist _).subset hc
      have h2 := removeTags_subset _ _ h1
      have h3 := List.take_subset _ _ h2
      have h4 := List.mem_filter.1 h3
      simpa [or_assoc] using h4.2
    · show (String.mk _).length ≤ _
      calc (String.mk (pyStrip _)).length
          ≤ (removeTags ((s.data.filter _).take maxLength)).length :=
            (pyStrip_sublist _).length_le
        _ ≤ ((s.data.filter _).take maxLength).length := removeTags_length _
        _ ≤ maxLength := List.length_take_le _ _
    · cases h : hasSpan (String.mk (pyStrip (removeTags _))).data with
      | false => rfl
      | true =>
        have h2 := hasSpan_sublist (pyStrip_sublist (removeTags _)) h
        rw [hasSpan_removeTags] at h2
        cases h2

/-- C10: when the `ENVIRONMENT` variable equals `"local"`, the
authentication check accepts the request whatever the `X-Goog-IAP-JWT-Assertion`
and `Authorization` headers hold — in particular when both are absent — so
such a request is never rejected with 401. -/
theorem c10_local_env_bypass (iapJwt : Option String) (authHeader : Option String) :
    verify_cloud_function_auth iapJwt authHeader (some "local") = true := by
  unfold verify_cloud_function_auth
  split
  · rfl
  · simp

/-- C8 counterexample: a task without `selfLink` still gets a `"Link"` entry
in the transmitted create property set (its value is `{"url": None}`), so
the claim that an omitted link field is not sent is false. -/
theorem c8_counterexample :
    (GTask.mk "t1" (some "Write docs") none none none none false none).selfLink = none ∧
    "Link" ∈ create_notion_properties
      (GTask.mk "t1" (some "Write docs") none none none none false none) := by
  constructor
  · rfl
  · decide

/-- C8 (amended): in the create and update property sets, the optional
fields `Updated at`, `Due date` and `Description` are included exactly when
the corresponding task field is present and non-empty; the `Link` property,
however, is always transmitted on create (even for a task with no
`selfLink`) and is never part of the update property set. -/
theorem c8_optional_fields (t : GTask) (ks : List String)
    (ht : update_notion_properties t = some ks) :
    (("Updated at" ∈ create_notion_properties t) ↔ truthyStr t.updated = true) ∧
    (("Due date" ∈ create_notion_properties t) ↔ truthyStr t.due = true) ∧
    (("Description" ∈ create_notion_properties t) ↔ truthyStr t.notes = true) ∧
    ("Link" ∈ create_notion_properties t) ∧
    (("Updated at" ∈ ks) ↔ truthyStr t.updated = true) ∧
    (("Due date" ∈ ks) ↔ truthyStr t.due = true) ∧
    (("Description" ∈ ks) ↔ truthyStr t.notes = true) ∧
    "Link" ∉ ks := by
  cases htl : t.title with
  | none => rw [update_notion_properties, htl] at ht; cases ht
  | some ttl =>
    rw [update_notion_properties, htl] at ht
    cases ht
    rw [create_notion_properties]
    cases hu : truthyStr t.updated <;> cases hd : truthyStr t.due <;>
      cases hn : truthyStr t.notes <;>
      cases hx : (extract_task_type (sanitize_string (t.title.getD "Untitled"))).isSome <;>
      simp [hu, hd, hn, hx]

/-- C8 witness for `c8_optional_fields` at a concrete task carrying only a
due date. -/
theorem c8_optional_fields_witness :
    (("Updated at" ∈ create_notion_properties
        (GTask.mk "t2" (some "Plan trip") none none none (some "2024-02-01") false none)) ↔
      truthyStr (GTask.mk "t2" (some "Plan trip") none none none (some "2024-02-01")
        false none).updated = true) ∧
    (("Due date" ∈ create_notion_properties
        (GTask.mk "t2" (some "Plan trip") none none none (some "2024-02-01") false none)) ↔
      truthyStr (GTask.mk "t2" (some "Plan trip") none none none (some "2024-02-01")
        false none).due = true) ∧
    (("Description" ∈ create_notion_properties
        (GTask.mk "t2" (some "Plan trip") none none none (some "2024-02-01") false none)) ↔
      truthyStr (GTask.mk "t2" (some "Plan trip") none none none (some "2024-02-01")
        false none).notes = true) ∧
    ("Link" ∈ create_notion_properties
      (GTask.mk "t2" (some "Plan trip") none none none (some "2024-02-01") false none)) ∧
    (("Updated at" ∈ ["Task name", "Due date"]) ↔
      truthyStr (GTask.mk "t2" (some "Plan trip") none none none (some "2024-02-01")
        false none).updated = true) ∧
    (("Due date" ∈ ["Task name", "Due date"]) ↔
      truthyStr (GTask.mk "t2" (some "Plan trip") none none none (some "2024-02-01")
        false none).due = true) ∧
    (("Description" ∈ ["Task name", "Due date"]) ↔
      truthyStr (GTask.mk "t2" (some "Plan trip") none none none (some "2024-02-01")
        false none).notes = true) ∧
    "Link" ∉ (["Task name", "Due date"] : List String) :=
  c8_optional_fields _ _ (by decide)

/-- C3 (amended): a task carrying `deleted=true` is excluded from the whole
forward pass — no create, no update, no staleness closeout, no store change
and no counter change; the reverse pass, however, never consults the
`deleted` flag (see the counterexample), so a completion can still be pushed
for a deleted task there. -/
theorem c3_deleted_skips_forward (nowUsec : Int) (nowIso : String)
    (S : List NotionRecord) (t : GTask) (hd : t.deleted = true) :
    processTask nowUsec nowIso S t = ⟨S, 0, 0, 0, [], false⟩ := by
  unfold processTask
  rw [if_pos hd]

/-- C3 witness for `c3_deleted_skips_forward` at a concrete deleted task. -/
theorem c3_deleted_skips_forward_witness :
    processTask 0 "2024-01-01T00:00:00.000+00:00" []
      (GTask.mk "g1" (some "Old task") none (some "needsAction") none none true none) =
      ⟨[], 0, 0, 0, [], false⟩ :=
  c3_deleted_skips_forward 0 "2024-01-01T00:00:00.000+00:00" [] _ rfl

/-- C3 counterexample: the reverse pass (`sync_notion_to_google`) pushes a
completion for a task with `deleted=true` — the lookup map is built from all
fetched tasks, deleted ones included, and the loop only skips tasks whose
status is already `"completed"` — contradicting the claim that deleted tasks
are excluded from all downstream processing. -/
theorem c3_counterexample :
    (GTask.mk "g1" (some "Old task") none (some "needsAction") none none true
      none).deleted = true ∧
    sync_notion_to_google
      [NotionRecord.mk "g1" "Old task" "Completed" none none none none none none []]
      (google_tasks_map
        [GTask.mk "g1" (some "Old task") none (some "needsAction") none none true none]) =
      (1, ["g1"]) := by
  constructor
  · rfl
  · decide

/-- C5: a per-task failure in the forward loop is caught and does not abort
the invocation: when processing task `t` (after the prefix `xs`) raises, the
suffix `ys` is still folded over the state reached after `t`'s caught step,
so the remaining tasks' outcomes are reflected in the final state and
counters. -/
theorem c5_partial_failure_isolation (nowUsec : Int) (nowIso : String)
    (xs ys : List GTask) (t : GTask) (st : SyncState)
    (hfail : (processTask nowUsec nowIso (sync_forward nowUsec nowIso xs st).store t).raised
      = true) :
    sync_forward nowUsec nowIso (xs ++ t :: ys) st =
      sync_forward nowUsec nowIso ys
        (forward_step nowUsec nowIso (sync_forward nowUsec nowIso xs st) t) := by
  unfold sync_forward
  rw [List.foldl_append, List.foldl_cons]

/-- C5 witness for `c5_partial_failure_isolation`: the store holds a record
whose `Imported at` property is missing, so processing its task raises the
modeled `KeyError`; a second task follows and is still processed (it is
created, as the final counters show). -/
theorem c5_partial_failure_isolation_witness :
    (processTask 0 "2024-01-05T00:00:00.000+00:00"
        (sync_forward 0 "2024-01-05T00:00:00.000+00:00" []
          (initState [NotionRecord.mk "g1" "Bad" "To do" none none none none none none []])).store
        (GTask.mk "g1" (some "Bad") none none none none false none)).raised = true ∧
    sync_forward 0 "2024-01-05T00:00:00.000+00:00"
        ([] ++ GTask.mk "g1" (some "Bad") none none none none false none ::
          [GTask.mk "g2" (some "Good") none none none none false none])
        (initState [NotionRecord.mk "g1" "Bad" "To do" none none none none none none []]) =
      sync_forward 0 "2024-01-05T00:00:00.000+00:00"
        [GTask.mk "g2" (some "Good") none none none none false none]
        (forward_step 0 "2024-01-05T00:00:00.000+00:00"
          (sync_forward 0 "2024-01-05T00:00:00.000+00:00" []
            (initState [NotionRecord.mk "g1" "Bad" "To do" none none none none none none []]))
          (GTask.mk "g1" (some "Bad") none none none none false none)) :=
  ⟨by decide, c5_partial_failure_isolation 0 "2024-01-05T00:00:00.000+00:00" [] _ _ _
    (by decide)⟩

theorem staleness_step_shape (nowUsec : Int) (t : GTask) (r : NotionRecord)
    (S2 : List NotionRecord) (upd : Nat) :
    ∃ cpl cps rsd, staleness_step nowUsec t r S2 upd = ⟨S2, 0, upd, cpl, cps, rsd⟩ := by
  unfold staleness_step
  split
  · exact ⟨0, [], true, rfl⟩
  · split
    · exact ⟨0, [], true, rfl⟩
    · split
      · exact ⟨0, [], true, rfl⟩
      · split
        · split
          · exact ⟨0, [], false, rfl⟩
          · exact ⟨1, [t.id], false, rfl⟩
        · exact ⟨0, [], false, rfl⟩

/-- C4: for a found record whose `Imported at` parses to an aware timestamp,
and whose incremental-update step does not raise, the staleness closeout
fires exactly when the record is strictly more than 7 days old and the task
is not completed: then exactly one mark-complete call is issued for the task
and the counter is incremented — whether or not the update step fired — and
a record imported exactly 6 days ago never triggers the call. -/
theorem c4_staleness_closeout (nowUsec : Int) (nowIso : String) (S : List NotionRecord)
    (t : GTask) (r : NotionRecord) (ia : String) (d : PyDateTime)
    (hdel : t.deleted = false)
    (hf : find_notion_task S t.id = some r)
    (h3 : step3 r t ≠ .raise)
    (hia : r.importedAt = some ia)
    (hp : parse_rfc3339 ia = some d)
    (hw : d.aware = true) :
    ((604800000000 : Int) < nowUsec - d.usec → ¬t.status = some "completed" →
      (processTask nowUsec nowIso S t).completions = [t.id] ∧
      (processTask nowUsec nowIso S t).completed = 1) ∧
    (nowUsec - d.usec = 518400000000 →
      (processTask nowUsec nowIso S t).completions = [] ∧
      (processTask nowUsec nowIso S t).completed = 0) := by
  have hd2 : ¬t.deleted = true := by simp [hdel]
  have hstale : ∀ (S2 : List NotionRecord) (upd : Nat),
      staleness_step nowUsec t r S2 upd =
        if (604800000000 : Int) < nowUsec - d.usec then
          (if t.status = some "completed" then ⟨S2, 0, upd, 0, [], false⟩
            else ⟨S2, 0, upd, 1, [t.id], false⟩)
        else ⟨S2, 0, upd, 0, [], false⟩ := by
    intro S2 upd
    unfold staleness_step
    simp only [hia, hp, hw]
    simp
  constructor
  · intro hgt hst
    cases hstep : step3 r t with
    | raise => exact absurd hstep h3
    | noUpdate =>
      constructor <;> simp [processTask, hd2, hf, hstep, hstale, hgt, hst]
    | doUpdate title =>
      constructor <;> simp [processTask, hd2, hf, hstep, hstale, hgt, hst]
  · intro heq
    have hngt : ¬(604800000000 : Int) < nowUsec - d.usec := by rw [heq]; decide
    cases hstep : step3 r t with
    | raise => exact absurd hstep h3
    | noUpdate =>
      constructor <;> simp [processTask, hd2, hf, hstep, hstale, hngt]
    | doUpdate title =>
      constructor <;> simp [processTask, hd2, hf, hstep, hstale, hngt]

/-- C4 witness for `c4_staleness_closeout`: a record imported at
2024-01-01T00:00:00Z seen at 2024-01-09T00:00:00Z (8 days later, so more
than 7 days) on a non-completed task: the task is completed exactly once;
the 6-day part is exercised at 2024-01-07T00:00:00Z. -/
theorem c4_staleness_closeout_witness :
    ((processTask 1704758400000000 "2024-01-09T00:00:00.000+00:00"
        [NotionRecord.mk "g1" "Old" "To do" (some "2024-01-01T00:00:00.000Z") none
          none none none none []]
        (GTask.mk "g1" (some "Old") none (some "needsAction") none none false
          none)).completions = ["g1"] ∧
      (processTask 1704758400000000 "2024-01-09T00:00:00.000+00:00"
        [NotionRecord.mk "g1" "Old" "To do" (some "2024-01-01T00:00:00.000Z") none
          none none none none []]
        (GTask.mk "g1" (some "Old") none (some "needsAction") none none false
          none)).completed = 1) ∧
    ((processTask 1704585600000000 "2024-01-07T00:00:00.000+00:00"
        [NotionRecord.mk "g1" "Old" "To do" (some "2024-01-01T00:00:00.000Z") none
          none none none none []]
        (GTask.mk "g1" (some "Old") none (some "needsAction") none none false
          none)).completions = [] ∧
      (processTask 1704585600000000 "2024-01-07T00:00:00.000+00:00"
        [NotionRecord.mk "g1" "Old" "To do" (some "2024-01-01T00:00:00.000Z") none
          none none none none []]
        (GTask.mk "g1" (some "Old") none (some "needsAction") none none false
          none)).completed = 0) :=
  ⟨(c4_staleness_closeout 1704758400000000 "2024-01-09T00:00:00.000+00:00" _ _
      (NotionRecord.mk "g1" "Old" "To do" (some "2024-01-01T00:00:00.000Z") none
        none none none none [])
      "2024-01-01T00:00:00.000Z" (PyDateTime.mk 1704067200000000 true) rfl (by decide)
      (by decide) rfl (by decide) rfl).1 (by decide) (by decide),
   (c4_staleness_closeout 1704585600000000 "2024-01-07T00:00:00.000+00:00" _ _
      (NotionRecord.mk "g1" "Old" "To do" (some "2024-01-01T00:00:00.000Z") none
        none none none none [])
      "2024-01-01T00:00:00.000Z" (PyDateTime.mk 1704067200000000 true) rfl (by decide)
      (by decide) rfl (by decide) rfl).2 (by decide)⟩

theorem step3_doUpdate_inv (r : NotionRecord) (t : GTask) (title : String)
    (hstep : step3 r t = .doUpdate title) :
    ∃ us ns a b, t.updated = some us ∧ ¬us = "" ∧ r.updatedAt = some ns ∧ ¬ns = "" ∧
      parse_rfc3339 us = some a ∧ parse_rfc3339 ns = some b ∧ pyGtDT a b = .ok true := by
  unfold step3 at hstep
  split at hstep
  · next hgate =>
    rw [Bool.and_eq_true] at hgate
    obtain ⟨hg1, hg2⟩ := hgate
    cases hru : r.updatedAt with
    | none => rw [hru] at hg1; cases hg1
    | some ns =>
      cases htu : t.updated with
      | none => rw [htu] at hg2; cases hg2
      | some us =>
        rw [hru] at hg1
        rw [htu] at hg2
        simp only [truthyStr, Bool.not_eq_true'] at hg1 hg2
        rw [hru, htu] at hstep
        simp only [Option.getD_some] at hstep
        split at hstep
        · cases hstep
        · next a hpa =>
          split at hstep
          · cases hstep
          · next b hpb =>
            split at hstep
            · cases hstep
            · next hgt =>
              split at hstep
              · cases hstep
              · next ttl httl =>
                cases hstep
                exact ⟨us, ns, a, b, rfl, by simpa using hg2, rfl, by simpa using hg1,
                  hpa, hpb, hgt⟩
            · cases hstep
  · cases hstep

theorem step3_fires (r : NotionRecord) (t : GTask) (ttl : String)
    (httl : t.title = some ttl) (us ns : String) (a b : PyDateTime)
    (hus : t.updated = some us) (hus0 : ¬us = "") (hns : r.updatedAt = some ns)
    (hns0 : ¬ns = "") (hpa : parse_rfc3339 us = some a) (hpb : parse_rfc3339 ns = some b)
    (hgt : pyGtDT a b = .ok true) : step3 r t = .doUpdate ttl := by
  unfold step3
  rw [hus, hns]
  have hg : (truthyStr (some ns) && truthyStr (some us)) = true := by
    simp [truthyStr, hus0, hns0]
  rw [if_pos hg]
  simp only [Option.getD_some, hpa, hpb, hgt, httl]

/-- C1: for a non-deleted task whose record is found (and whose `title` key
is present, as the spec data model guarantees), the incremental update is
applied — `updated` delta of exactly 1 — if and only if both the record's
stored `Updated at` and the task's `updated` are present and non-empty, both
parse as RFC-3339, and the task's timestamp is strictly greater under the
UTC-normalized comparison; otherwise (absent, equal or older timestamp) the
`updated` delta is 0. -/
theorem c1_update_gate (nowUsec : Int) (nowIso : String) (S : List NotionRecord)
    (t : GTask) (r : NotionRecord)
    (hdel : t.deleted = false)
    (hf : find_notion_task S t.id = some r)
    (ht : t.title.isSome = true) :
    ((processTask nowUsec nowIso S t).updated = 1 ↔
      ∃ us ns a b, t.updated = some us ∧ ¬us = "" ∧ r.updatedAt = some ns ∧ ¬ns = "" ∧
        parse_rfc3339 us = some a ∧ parse_rfc3339 ns = some b ∧ pyGtDT a b = .ok true) ∧
    (processTask nowUsec nowIso S t).updated ≤ 1 := by
  have hd2 : ¬t.deleted = true := by simp [hdel]
  have hupd : (processTask nowUsec nowIso S t).updated =
      (match step3 r t with | .doUpdate _ => 1 | _ => 0) := by
    cases hstep : step3 r t with
    | raise => simp [processTask, hd2, hf, hstep]
    | noUpdate =>
      obtain ⟨cpl, cps, rsd, hs⟩ := staleness_step_shape nowUsec t r S 0
      simp [processTask, hd2, hf, hstep, hs]
    | doUpdate title =>
      obtain ⟨cpl, cps, rsd, hs⟩ :=
        staleness_step_shape nowUsec t r (update_notion_store S t.id t title) 1
      simp [processTask, hd2, hf, hstep, hs]
  rw [hupd]
  constructor
  · constructor
    · intro h1
      cases hstep : step3 r t with
      | raise => rw [hstep] at h1; simp at h1
      | noUpdate => rw [hstep] at h1; simp at h1
      | doUpdate title => exact step3_doUpdate_inv r t title hstep
    · rintro ⟨us, ns, a, b, hus, hus0, hns, hns0, hpa, hpb, hgt⟩
      obtain ⟨ttl, httl⟩ := Option.isSome_iff_exists.1 ht
      rw [step3_fires r t ttl httl us ns a b hus hus0 hns hns0 hpa hpb hgt]
  · cases step3 r t <;> simp

/-- C1 witness for `c1_update_gate`: a record stored at
2024-01-01T00:00:00Z and a task updated at 2024-01-02T00:00:00Z — strictly
newer, so the update fires; the right-hand side of the equivalence is
exhibited with the two parsed timestamps. -/
theorem c1_update_gate_witness :
    ((processTask 0 "2024-01-03T00:00:00.000+00:00"
        [NotionRecord.mk "g1" "Task" "To do" (some "2024-01-01T00:00:00.000+00:00")
          (some "2024-01-01T00:00:00.000Z") none none none none []]
        (GTask.mk "g1" (some "Task") none none (some "2024-01-02T00:00:00.000Z") none
          false none)).updated = 1 ↔
      ∃ us ns a b,
        (GTask.mk "g1" (some "Task") none none (some "2024-01-02T00:00:00.000Z") none
          false none).updated = some us ∧ ¬us = "" ∧
        (NotionRecord.mk "g1" "Task" "To do" (some "2024-01-01T00:00:00.000+00:00")
          (some "2024-01-01T00:00:00.000Z") none none none none []).updatedAt = some ns ∧
        ¬ns = "" ∧ parse_rfc3339 us = some a ∧ parse_rfc3339 ns = some b ∧
        pyGtDT a b = .ok true) ∧
    (processTask 0 "2024-01-03T00:00:00.000+00:00"
        [NotionRecord.mk "g1" "Task" "To do" (some "2024-01-01T00:00:00.000+00:00")
          (some "2024-01-01T00:00:00.000Z") none none none none []]
        (GTask.mk "g1" (some "Task") none none (some "2024-01-02T00:00:00.000Z") none
          false none)).updated ≤ 1 :=
  c1_update_gate 0 "2024-01-03T00:00:00.000+00:00" _ _
    (NotionRecord.mk "g1" "Task" "To do" (some "2024-01-01T00:00:00.000+00:00")
      (some "2024-01-01T00:00:00.000Z") none none none none [])
    rfl (by decide) rfl

theorem find_key_nodup (tid : String) (ts : Nat) (res : List (String × Nat)) :
    ∀ (l : List TxEntry), (l.map (fun e => e.1)).Nodup → (tid, ts, res) ∈ l →
      l.find? (fun e => e.1 = tid) = some (tid, ts, res) := by
  intro l
  induction l with
  | nil => intro _ h; cases h
  | cons e0 rest ih =>
    intro hnd hmem
    rw [List.map_cons, List.nodup_cons] at hnd
    rcases List.mem_cons.1 hmem with he | he
    · rw [← he]
      rw [List.find?_cons_of_pos _ (by simp)]
    · have hne : ¬e0.1 = tid := by
        intro hk
        exact hnd.1 (hk ▸ (List.mem_map.2 ⟨(tid, ts, res), he, rfl⟩))
      rw [List.find?_cons_of_neg _ (by simp [hne])]
      exact ih hnd.2 he

/-- C9: an invocation carrying a transaction token stored within the 1-hour
TTL gets the cached result back and the reconciliation logic is not
executed; an invocation whose token is unseen (or only present as an entry
older than the TTL, which the sweep removes) executes fresh, and its result
is stored under the token afterwards. -/
theorem c9_idempotency_cache (now : Nat) (m : List TxEntry) (tid : String)
    (ts : Nat) (res fresh : List (String × Nat)) :
    ((m.map (fun e => e.1)).Nodup → (tid, ts, res) ∈ m → now - ts ≤ 3600 →
      sync_with_tx now m (some tid) fresh = (some res, tx_sweep now m, false)) ∧
    ((∀ e ∈ tx_sweep now m, ¬e.1 = tid) →
      sync_with_tx now m (some tid) fresh =
        (some fresh, tx_sweep now m ++ [(tid, now, fresh)], true)) := by
  constructor
  · intro hnd hmem hts
    have hkeep : (tid, ts, res) ∈ tx_sweep now m := by
      rw [tx_sweep, List.mem_filter]
      exact ⟨hmem, by simp [Nat.not_lt.2 hts]⟩
    have hnd2 : ((tx_sweep now m).map (fun e => e.1)).Nodup :=
      hnd.sublist ((List.filter_sublist m).map (fun e => e.1))
    have hany : (tx_sweep now m).any (fun e => e.1 = tid) = true := by
      rw [List.any_eq_true]
      exact ⟨(tid, ts, res), hkeep, by simp⟩
    unfold sync_with_tx is_idempotent_request
    simp only [hany, if_true]
    rw [get_transaction_result, find_key_nodup tid ts res (tx_sweep now m) hnd2 hkeep]
    rfl
  · intro hnone
    have hany : (tx_sweep now m).any (fun e => e.1 = tid) = false := by
      rw [List.any_eq_false]
      intro e he
      simpa using hnone e he
    unfold sync_with_tx is_idempotent_request
    simp only [hany]
    rfl

/-- C9 witness for `c9_idempotency_cache`: token `"a"` cached 100 seconds
ago is served from the cache without execution; unseen token `"b"` runs
fresh and is stored. -/
theorem c9_idempotency_cache_witness :
    sync_with_tx 200 [("a", 100, [("created", 1)])] (some "a") [("created", 5)] =
      (some [("created", 1)], [("a", 100, [("created", 1)])], false) ∧
    sync_with_tx 200 [("a", 100, [("created", 1)])] (some "b") [("created", 5)] =
      (some [("created", 5)],
        [("a", 100, [("created", 1)]), ("b", 200, [("created", 5)])], true) := by
  constructor
  · have h := (c9_idempotency_cache 200 [("a", 100, [("created", 1)])] "a" 100
      [("created", 1)] [("created", 5)]).1 (by decide) (by decide) (by decide)
    rw [h]
    rfl
  · have h := (c9_idempotency_cache 200 [("a", 100, [("created", 1)])] "b" 0
      [] [("created", 5)]).2 (by decide)
    rw [h]
    rfl

theorem takeWhile_letters (letters rest : List Char)
    (hl : ∀ c ∈ letters, isAsciiLetter c = true) :
    (letters ++ '-' :: rest).takeWhile isAsciiLetter = letters := by
  induction letters with
  | nil => simp [List.takeWhile_cons, show isAsciiLetter '-' = false from rfl]
  | cons a l ih =>
    have ha : isAsciiLetter a = true := hl a (List.mem_cons_self a l)
    rw [List.cons_append, List.takeWhile_cons, ha]
    rw [ih (fun c hc => hl c (List.mem_cons_of_mem a hc))]
    simp

/-- C6 (amended): for every title whose character sequence decomposes as 3-5
ASCII letters, a hyphen, and a remainder, the extracted tag is exactly those
letters uppercased, and the normalized title is the remainder after the
optional single whitespace of `\s?`, trimmed and passed through
sanitization; for every title admitting no such decomposition, no tag is
produced and the normalized title is the trimmed input passed through
sanitization.  (Sanitization — control-character and angle-bracket-span
stripping with truncation — is applied by `normalize_title` in both cases;
the original claim's "trimmed input unchanged" holds only up to it.) -/
theorem c6_title_tag (s : String) :
    (∀ (letters rest : List Char), s.data = letters ++ '-' :: rest →
      (∀ c ∈ letters, isAsciiLetter c = true) → 3 ≤ letters.length → letters.length ≤ 5 →
      extract_task_type s = some (String.mk (letters.map Char.toUpper)) ∧
      normalize_title s = sanitize_string (String.mk (pyStrip (dropOneSpace rest)))) ∧
    ((∀ (letters rest : List Char), s.data = letters ++ '-' :: rest →
        (∀ c ∈ letters, isAsciiLetter c = true) → 3 ≤ letters.length →
        letters.length ≤ 5 → False) →
      extract_task_type s = none ∧
      normalize_title s = sanitize_string (String.mk (pyStrip s.data))) := by
  constructor
  · intro letters rest hdec hletters h3 h5
    have htm : task_type_match s = some (letters, letters.length + 1 + extraOf rest) := by
      simp only [task_type_match]
      rw [hdec, takeWhile_letters letters rest hletters, List.drop_left,
        if_pos (And.intro h3 h5)]
      cases rest with
      | nil => rfl
      | cons c r => rfl
    have hsub : (task_type_sub s).data = dropOneSpace rest := by
      unfold task_type_sub
      rw [htm, hdec]
      cases rest with
      | nil =>
        show (letters ++ ['-']).drop (letters.length + 1 + extraOf []) = dropOneSpace []
        simp [extraOf, dropOneSpace]
      | cons c r =>
        by_cases hc : isPySpaceChar c
        · show (letters ++ '-' :: c :: r).drop (letters.length + 1 + extraOf (c :: r)) =
            dropOneSpace (c :: r)
          rw [dropOneSpace, if_pos hc]
          simp [extraOf, hc, Nat.add_assoc]
        · show (letters ++ '-' :: c :: r).drop (letters.length + 1 + extraOf (c :: r)) =
            dropOneSpace (c :: r)
          rw [dropOneSpace, if_neg hc]
          simp [extraOf, hc, Nat.add_assoc]
    constructor
    · unfold extract_task_type
      rw [htm]
    · unfold normalize_title
      rw [hsub]
  · intro hno
    have htm : task_type_match s = none := by
      simp only [task_type_match]
      by_cases hk : 3 ≤ (s.data.takeWhile isAsciiLetter).length ∧
          (s.data.takeWhile isAsciiLetter).length ≤ 5
      · rw [if_pos hk]
        cases hdk : s.data.drop (s.data.takeWhile isAsciiLetter).length with
        | nil => rfl
        | cons c r =>
          obtain ⟨t2, ht2⟩ := List.takeWhile_prefix (l := s.data) isAsciiLetter
          have hdrop : s.data.drop (s.data.takeWhile isAsciiLetter).length = t2 := by
            have hdl := List.drop_left (s.data.takeWhile isAsciiLetter) t2
            rwa [ht2] at hdl
          have ht2c : t2 = c :: r := hdrop.symm.trans hdk
          have ht2r : s.data = s.data.takeWhile isAsciiLetter ++ c :: r := by
            rw [← ht2c]
            exact ht2.symm
          by_cases hc : c = '-'
          · subst hc
            exact (hno (s.data.takeWhile isAsciiLetter) r ht2r
              (fun x hx => List.mem_takeWhile_imp hx) hk.1 hk.2).elim
          · split
            · next rest2 heq => rw [List.cons.injEq] at heq; exact absurd heq.1 hc
            · rfl
      · rw [if_neg hk]
    constructor
    · unfold extract_task_type
      rw [htm]
    · unfold normalize_title task_type_sub
      rw [htm]

/-- C6 witness for `c6_title_tag`: `"BUG- Handle error"` yields tag `BUG`
and normalized title `"Handle error"`; `"hello world"` (no decomposition —
it contains no hyphen at all) yields no tag and the unchanged title. -/
theorem c6_title_tag_witness :
    extract_task_type "BUG- Handle error" = some "BUG" ∧
    normalize_title "BUG- Handle error" = "Handle error" ∧
    extract_task_type "hello world" = none ∧
    normalize_title "hello world" = "hello world" := by
  have h1 := (c6_title_tag "BUG- Handle error").1 ['B', 'U', 'G']
    (' ' :: "Handle error".data) (by decide) (by decide) (by decide) (by decide)
  have h2 := (c6_title_tag "hello world").2 (fun letters rest hdec _ _ _ => by
    have hm : '-' ∈ "hello world".data := by
      rw [hdec]
      exact List.mem_append_right _ (List.mem_cons_self _ _)
    exact absurd hm (by decide))
  refine ⟨h1.1.trans (by decide), h1.2.trans (by decide), h2.1, h2.2.trans (by decide)⟩

/-- C6 counterexample: `"ab<c>"` matches no tag prefix and is already
trimmed (stripping whitespace leaves it unchanged), yet its normalized
title is `"ab"`, not the trimmed input unchanged — sanitization also strips
the angle-bracket span — so the claim's non-matching clause is false as
stated. -/
theorem c6_counterexample :
    extract_task_type "ab<c>" = none ∧
    pyStrip ("ab<c>" : String).data = ("ab<c>" : String).data ∧
    normalize_title "ab<c>" = "ab" ∧
    ¬normalize_title "ab<c>" = "ab<c>" := by
  refine ⟨by decide, by decide, by decide, by decide⟩

theorem pyGt_ok_true_iff (a b : PyDateTime) :
    pyGtDT a b = .ok true ↔ (a.aware = b.aware ∧ b.usec < a.usec) := by
  unfold pyGtDT
  split
  · next h => simp [h]
  · next h => simp [h]

theorem pyGt_ok_false_iff (a b : PyDateTime) :
    pyGtDT a b = .ok false ↔ (a.aware = b.aware ∧ a.usec ≤ b.usec) := by
  unfold pyGtDT
  split
  · next h => simp [h, Int.not_lt]
  · next h => simp [h]

theorem pyGt_error_of_ne (a b : PyDateTime) (h : ¬a.aware = b.aware) :
    pyGtDT a b = .error () := by
  unfold pyGtDT
  rw [if_neg h]

theorem find_append_some (S L : List NotionRecord) (gid : String) (r : NotionRecord)
    (h : find_notion_task S gid = some r) :
    find_notion_task (S ++ L) gid = some r := by
  induction S with
  | nil => cases h
  | cons r0 rest ih =>
    rw [find_notion_task] at h
    rw [List.cons_append, find_notion_task]
    split at h
    · next h0 => rw [if_pos h0]; exact h
    · next h0 => rw [if_neg h0]; exact ih h

theorem find_append_none (S L : List NotionRecord) (gid : String)
    (h : find_notion_task S gid = none) :
    find_notion_task (S ++ L) gid = find_notion_task L gid := by
  induction S with
  | nil => rfl
  | cons r0 rest ih =>
    rw [find_notion_task] at h
    rw [List.cons_append, find_notion_task]
    split at h
    · cases h
    · next h0 => rw [if_neg h0]; exact ih h

theorem find_update_ne (S : List NotionRecord) (gid gid2 : String) (u : GTask)
    (title : String) (h : ¬gid2 = gid) :
    find_notion_task (update_notion_store S gid u title) gid2 =
      find_notion_task S gid2 := by
  induction S with
  | nil => rfl
  | cons r0 rest ih =>
    rw [update_notion_store]
    split
    · next h0 =>
      rw [find_notion_task, find_notion_task]
      have hne : ¬(applyUpdate r0 u title).externalId = gid2 := by
        simp only [applyUpdate]
        rw [h0]
        exact fun hh => h hh.symm
      rw [if_neg hne]
      have hne2 : ¬r0.externalId = gid2 := by
        rw [h0]
        exact fun hh => h hh.symm
      rw [if_neg hne2]
    · next h0 =>
      rw [find_notion_task, find_notion_task]
      split
      · rfl
      · exact ih

theorem find_update_eq (S : List NotionRecord) (gid : String) (u : GTask)
    (title : String) (r : NotionRecord) (h : find_notion_task S gid = some r) :
    find_notion_task (update_notion_store S gid u title) gid =
      some (applyUpdate r u title) := by
  induction S with
  | nil => cases h
  | cons r0 rest ih =>
    rw [find_notion_task] at h
    rw [update_notion_store]
    split at h
    · next h0 =>
      cases h
      rw [if_pos h0, find_notion_task]
      have : (applyUpdate r u title).externalId = gid := by
        simp only [applyUpdate]
        exact h0
      rw [if_pos this]
    · next h0 =>
      rw [if_neg h0, find_notion_task, if_neg h0]
      exact ih h

theorem step3IsUpdate_of_not_doUpdate (r : NotionRecord) (t : GTask)
    (h : ∀ title, ¬step3 r t = .doUpdate title) : step3IsUpdate r t = false := by
  unfold step3IsUpdate
  cases hstep : step3 r t with
  | raise => rfl
  | noUpdate => rfl
  | doUpdate title => exact absurd hstep (h title)

theorem step3_noRefire (r : NotionRecord) (t : GTask) (hup : r.updatedAt = t.updated) :
    step3IsUpdate r t = false := by
  unfold step3IsUpdate step3
  rw [hup]
  cases htu : t.updated with
  | none => simp [truthyStr]
  | some us =>
    by_cases h0 : us = ""
    · simp [truthyStr, h0]
    · have hgate : (truthyStr (some us) && truthyStr (some us)) = true := by
        simp [truthyStr, h0]
      rw [if_pos hgate]
      simp only [Option.getD_some]
      cases hp : parse_rfc3339 us with
      | none => rfl
      | some a =>
        have hgt : pyGtDT a a = .ok false := by
          rw [pyGt_ok_false_iff]
          exact ⟨rfl, le_refl _⟩
        simp only [hgt]

theorem step3_not_truthy (r : NotionRecord) (t : GTask)
    (h : truthyStr r.updatedAt = false) : step3IsUpdate r t = false := by
  unfold step3IsUpdate step3
  rw [h]
  simp

theorem step3_self_create (t : GTask) (nowIso : String) :
    step3IsUpdate (createRecord t nowIso) t = false := by
  by_cases htu : truthyStr t.updated = true
  · apply step3_noRefire
    simp only [createRecord]
    rw [if_pos htu]
  · apply step3_not_truthy
    simp only [createRecord]
    rw [if_neg htu]
    rfl

theorem step3_self_update (r : NotionRecord) (u : GTask) (title : String)
    (hstep : step3 r u = .doUpdate title) :
    step3IsUpdate (applyUpdate r u title) u = false := by
  obtain ⟨v, ns, a2, b, hvu, hv0, hns, hns0, hpv, hpns, hgt2⟩ :=
    step3_doUpdate_inv r u title hstep
  apply step3_noRefire
  simp only [applyUpdate]
  rw [hvu]
  simp [truthyStr, hv0]

theorem step3_mono (r : NotionRecord) (t u : GTask) (titleU : String)
    (hfalse : step3IsUpdate r t = false)
    (hstep : step3 r u = .doUpdate titleU) :
    step3IsUpdate (applyUpdate r u titleU) t = false := by
  obtain ⟨v, ns, a2, b, hvu, hv0, hns, hns0, hpv, hpns, hgt2⟩ :=
    step3_doUpdate_inv r u titleU hstep
  obtain ⟨hab2, hlt2⟩ := (pyGt_ok_true_iff a2 b).1 hgt2
  have hra : (applyUpdate r u titleU).updatedAt = some v := by
    simp only [applyUpdate]
    rw [hvu]
    simp [truthyStr, hv0]
  unfold step3IsUpdate step3
  rw [hra]
  cases htw : t.updated with
  | none => simp [truthyStr]
  | some w =>
    by_cases hw0 : w = ""
    · simp [truthyStr, hw0]
    · have hgatev : (truthyStr (some v) && truthyStr (some w)) = true := by
        simp [truthyStr, hv0, hw0]
      rw [if_pos hgatev]
      simp only [Option.getD_some, hpv]
      cases hpw : parse_rfc3339 w with
      | none => simp only [hpw]
      | some a =>
        simp only [hpw]
        unfold step3IsUpdate step3 at hfalse
        rw [hns, htw] at hfalse
        have hgaten : (truthyStr (some ns) && truthyStr (some w)) = true := by
          simp [truthyStr, hns0, hw0]
        rw [if_pos hgaten] at hfalse
        simp only [Option.getD_some, hpw, hpns] at hfalse
        cases hab : pyGtDT a b with
        | error e =>
          have hne : ¬a.aware = b.aware := by
            intro hh
            rw [pyGtDT, if_pos hh] at hab
            cases hab
          have : pyGtDT a a2 = .error () := pyGt_error_of_ne a a2 (hab2 ▸ hne)
          simp only [this]
        | ok bv =>
          cases bv with
          | false =>
            obtain ⟨haw, hle⟩ := (pyGt_ok_false_iff a b).1 hab
            have : pyGtDT a a2 = .ok false := by
              rw [pyGt_ok_false_iff]
              exact ⟨haw.trans hab2.symm, le_of_lt (lt_of_le_of_lt hle hlt2)⟩
            simp only [this]
          | true =>
            simp only [hab] at hfalse
            cases httl : t.title with
            | some ttl => rw [httl] at hfalse; simp at hfalse
            | none =>
              cases hgta : pyGtDT a a2 with
              | error e => simp only [hgta]
              | ok bv2 =>
                cases bv2 with
                | false => simp only [hgta]
                | true => simp only [hgta, httl]

theorem processTask_cases (nowU : Int) (nowIso : String) (S : List NotionRecord)
    (u : GTask) :
    (u.deleted = true ∧ processTask nowU nowIso S u = ⟨S, 0, 0, 0, [], false⟩) ∨
    (u.deleted = false ∧ find_notion_task S u.id = none ∧
      processTask nowU nowIso S u = ⟨S ++ [createRecord u nowIso], 1, 0, 0, [], false⟩) ∨
    (∃ r, u.deleted = false ∧ find_notion_task S u.id = some r ∧
      ((step3 r u = .raise ∧ processTask nowU nowIso S u = ⟨S, 0, 0, 0, [], true⟩) ∨
       (step3 r u = .noUpdate ∧ ∃ cpl cps rsd,
         processTask nowU nowIso S u = ⟨S, 0, 0, cpl, cps, rsd⟩) ∨
       (∃ title, step3 r u = .doUpdate title ∧ ∃ cpl cps rsd,
         processTask nowU nowIso S u =
           ⟨update_notion_store S u.id u title, 0, 1, cpl, cps, rsd⟩))) := by
  by_cases hd : u.deleted = true
  · exact Or.inl ⟨hd, by simp [processTask, hd]⟩
  · right
    cases hf : find_notion_task S u.id with
    | none =>
      exact Or.inl ⟨by simpa using hd, rfl, by simp [processTask, hd, hf]⟩
    | some r =>
      right
      refine ⟨r, by simpa using hd, rfl, ?_⟩
      cases hstep : step3 r u with
      | raise => exact Or.inl ⟨rfl, by simp [processTask, hd, hf, hstep]⟩
      | noUpdate =>
        obtain ⟨cpl, cps, rsd, hs⟩ := staleness_step_shape nowU u r S 0
        exact Or.inr (Or.inl ⟨rfl, cpl, cps, rsd,
          by simp [processTask, hd, hf, hstep, hs]⟩)
      | doUpdate title =>
        obtain ⟨cpl, cps, rsd, hs⟩ :=
          staleness_step_shape nowU u r (update_notion_store S u.id u title) 1
        exact Or.inr (Or.inr ⟨title, rfl, cpl, cps, rsd,
          by simp [processTask, hd, hf, hstep, hs]⟩)

theorem stable_preserve (nowU : Int) (nowIso : String) (S : List NotionRecord)
    (u t : GTask) (h : stableFor S t) :
    stableFor (processTask nowU nowIso S u).store t := by
  obtain ⟨r, hfr, hfl⟩ := h
  rcases processTask_cases nowU nowIso S u with
    ⟨_, heq⟩ | ⟨_, _, heq⟩ | ⟨ru, _, hfu, ⟨_, heq⟩ | ⟨_, cpl, cps, rsd, heq⟩ |
      ⟨title, hstep, cpl, cps, rsd, heq⟩⟩
  · rw [heq]
    exact ⟨r, hfr, hfl⟩
  · rw [heq]
    exact ⟨r, find_append_some S _ t.id r hfr, hfl⟩
  · rw [heq]
    exact ⟨r, hfr, hfl⟩
  · rw [heq]
    exact ⟨r, hfr, hfl⟩
  · rw [heq]
    by_cases hid : t.id = u.id
    · have hru : ru = r := by
        rw [hid] at hfr
        rw [hfu] at hfr
        exact Option.some.inj hfr
      subst hru
      refine ⟨applyUpdate ru u title, ?_, step3_mono ru t u title hfl hstep⟩
      show find_notion_task (update_notion_store S u.id u title) t.id = _
      rw [hid]
      exact find_update_eq S u.id u title ru hfu
    · refine ⟨r, ?_, hfl⟩
      show find_notion_task (update_notion_store S u.id u title) t.id = some r
      rw [find_update_ne S u.id t.id u title hid]
      exact hfr

theorem stable_self (nowU : Int) (nowIso : String) (S : List NotionRecord)
    (u : GTask) (hd : u.deleted = false) :
    stableFor (processTask nowU nowIso S u).store u := by
  rcases processTask_cases nowU nowIso S u with
    ⟨hdel, _⟩ | ⟨_, hf, heq⟩ | ⟨ru, _, hfu, ⟨hstep, heq⟩ | ⟨hstep, cpl, cps, rsd, heq⟩ |
      ⟨title, hstep, cpl, cps, rsd, heq⟩⟩
  · rw [hd] at hdel; cases hdel
  · rw [heq]
    refine ⟨createRecord u nowIso, ?_, step3_self_create u nowIso⟩
    show find_notion_task (S ++ [createRecord u nowIso]) u.id = _
    rw [find_append_none S _ u.id hf, find_notion_task]
    have : (createRecord u nowIso).externalId = u.id := by simp [createRecord]
    rw [if_pos this]
  · rw [heq]
    exact ⟨ru, hfu, by simp [step3IsUpdate, hstep]⟩
  · rw [heq]
    exact ⟨ru, hfu, by simp [step3IsUpdate, hstep]⟩
  · rw [heq]
    refine ⟨applyUpdate ru u title, ?_, step3_self_update ru u title hstep⟩
    show find_notion_task (update_notion_store S u.id u title) u.id = _
    exact find_update_eq S u.id u title ru hfu

theorem stable_sync_forward (nowU : Int) (nowIso : String) (tasks : List GTask) :
    ∀ (st : SyncState) (t : GTask), stableFor st.store t →
      stableFor (sync_forward nowU nowIso tasks st).store t := by
  induction tasks with
  | nil => intro st t h; exact h
  | cons u rest ih =>
    intro st t h
    rw [sync_forward, List.foldl_cons]
    exact ih (forward_step nowU nowIso st u) t (stable_preserve nowU nowIso st.store u t h)

theorem all_stable (nowU : Int) (nowIso : String) (tasks : List GTask) :
    ∀ (st : SyncState) (t : GTask), t ∈ tasks → t.deleted = false →
      stableFor (sync_forward nowU nowIso tasks st).store t := by
  induction tasks with
  | nil => intro st t ht _; cases ht
  | cons u rest ih =>
    intro st t ht hdt
    rw [sync_forward, List.foldl_cons]
    rcases List.mem_cons.1 ht with he | he
    · subst he
      exact stable_sync_forward nowU nowIso rest (forward_step nowU nowIso st t) t
        (stable_self nowU nowIso st.store t hdt)
    · exact ih (forward_step nowU nowIso st u) t he hdt

theorem run2_zero (nowU : Int) (nowIso : String) (tasks : List GTask) :
    ∀ (st : SyncState), (∀ t ∈ tasks, t.deleted = false → stableFor st.store t) →
      (sync_forward nowU nowIso tasks st).store = st.store ∧
      (sync_forward nowU nowIso tasks st).created = st.created ∧
      (sync_forward nowU nowIso tasks st).updated = st.updated := by
  induction tasks with
  | nil => intro st _; exact ⟨rfl, rfl, rfl⟩
  | cons u rest ih =>
    intro st hstable
    have hone : (forward_step nowU nowIso st u).store = st.store ∧
        (forward_step nowU nowIso st u).created = st.created ∧
        (forward_step nowU nowIso st u).updated = st.updated := by
      by_cases hd : u.deleted = true
      · rcases processTask_cases nowU nowIso st.store u with ⟨_, heq⟩ | ⟨hd2, _⟩ |
          ⟨r, hd2, _⟩
        · unfold forward_step
          rw [heq]
          exact ⟨rfl, rfl, rfl⟩
        · rw [hd] at hd2; cases hd2
        · rw [hd] at hd2; cases hd2
      · obtain ⟨r, hfr, hfl⟩ := hstable u (List.mem_cons_self u rest) (by simpa using hd)
        rcases processTask_cases nowU nowIso st.store u with ⟨hdel, _⟩ | ⟨_, hf, _⟩ |
          ⟨ru, _, hfu, hcase⟩
        · exact absurd hdel hd
        · rw [hfr] at hf; cases hf
        · have hru : ru = r := by
            rw [hfr] at hfu
            exact Option.some.inj hfu.symm
          rcases hcase with ⟨_, heq⟩ | ⟨_, cpl, cps, rsd, heq⟩ |
            ⟨title, hstep3, _⟩
          · unfold forward_step
            rw [heq]
            exact ⟨rfl, rfl, rfl⟩
          · unfold forward_step
            rw [heq]
            exact ⟨rfl, rfl, rfl⟩
          · rw [hru] at hstep3
            rw [step3IsUpdate, hstep3] at hfl
            cases hfl
    rw [sync_forward, List.foldl_cons]
    have hrest : ∀ t ∈ rest, t.deleted = false →
        stableFor (forward_step nowU nowIso st u).store t := by
      intro t ht hdt
      rw [hone.1]
      exact hstable t (List.mem_cons_of_mem u ht) hdt
    have hr := ih (forward_step nowU nowIso st u) hrest
    exact ⟨hr.1.trans hone.1, hr.2.1.trans hone.2.1, hr.2.2.trans hone.2.2⟩

/-- C2: running the forward pass a second time over an unchanged task set,
on the store the first run produced, performs zero creates and zero updates
— every lookup finds the record left by the first run and the
change-detection gate never fires against it — and the store itself is
unchanged, so no duplicate record is ever created.  (Both runs may use
different clock values; the result does not depend on them.) -/
theorem c2_second_run_idempotent (nowU1 nowU2 : Int) (nowIso1 nowIso2 : String)
    (tasks : List GTask) (S0 : List NotionRecord) :
    (sync_forward nowU2 nowIso2 tasks
      (initState (sync_forward nowU1 nowIso1 tasks (initState S0)).store)).created = 0 ∧
    (sync_forward nowU2 nowIso2 tasks
      (initState (sync_forward nowU1 nowIso1 tasks (initState S0)).store)).updated = 0 ∧
    (sync_forward nowU2 nowIso2 tasks
      (initState (sync_forward nowU1 nowIso1 tasks (initState S0)).store)).store =
      (sync_forward nowU1 nowIso1 tasks (initState S0)).store := by
  have hall : ∀ t ∈ tasks, t.deleted = false →
      stableFor (initState (sync_forward nowU1 nowIso1 tasks (initState S0)).store).store t :=
    fun t ht hdt => all_stable nowU1 nowIso1 tasks (initState S0) t ht hdt
  have hz := run2_zero nowU2 nowIso2 tasks
    (initState (sync_forward nowU1 nowIso1 tasks (initState S0)).store) hall
  exact ⟨hz.2.1, hz.2.2, hz.1⟩
